import Mathlib

/-!
Verification of the dojo synchronization bridge of `drive-ai` (`src/dojo.rs`,
`src/enemy.rs`) against its natural-language specification.

The Rust code is shallowly embedded: pure functions become Lean functions on
`ℕ`/`ℚ`, the Bevy repeating timer and the dispatcher system become explicit
state-passing functions, bounded tokio channels become a counter with a
capacity, and each background worker's loop body becomes a function from its
inputs (resolved model id, ledger-call results) to the ledger calls it makes,
the main-thread-bridge events it emits and the error lines it logs.
Configuration constants that live in the crate's `configs` module (sync
interval, enemy count, model name, coordinate ratios) are not part of the
sources under verification, so every definition is parameterized over them.
-/

/-! ## Value transcoders (`fixed_to_f32`, `rand_felt_fixed_point`,
`dojo_to_bevy_coordinate`) -/

/-- The integer stage of `fixed_to_f32` (src/dojo.rs:350-356): the code parses
the field element's decimal string into a `BigUint` and divides by `2^64`
with `BigUint` *integer* division, then converts that integer to `f32` with
`to_f32` (which rounds the integer to the nearest float; for the integer `0`
the float is exactly `0.0`).  This definition is that exact integer. -/
def fixed_to_f32_int (v : ℕ) : ℕ :=
  v / 2 ^ 64

/-- `approx` is within `f32` rounding error of `exact`: off by at most one
unit roundoff (`2^-24`, the relative error bound of `f32`'s 24-bit
significand) of the exact value. -/
def withinF32Rounding (approx exact : ℚ) : Prop :=
  |approx - exact| ≤ |exact| / 2 ^ 24

/-- The STARK field prime: every `FieldElement` value is below it. -/
def stark_prime : ℕ :=
  2 ^ 251 + 17 * 2 ^ 192 + 1

/-- `rand_felt_fixed_point` (src/dojo.rs:31-34): `(rng.gen::<u128>() % 200)
<< 64` converted into a `FieldElement`.  The `u128` sample is modeled as an
arbitrary natural `r` reduced mod `2^128`; the shift is a multiplication by
`2^64` carried out in `u128` arithmetic (hence the outer `% 2^128`). -/
def rand_felt_fixed_point (r : ℕ) : ℕ :=
  (r % 2 ^ 128 % 200 * 2 ^ 64) % 2 ^ 128

/-- `dojo_to_bevy_coordinate` (src/dojo.rs:358-366), with the configuration
constants `DOJO_TO_BEVY_RATIO_X`, `ROAD_X_MIN`, `DOJO_TO_BEVY_RATIO_Y` as
parameters: `bevy_x = dojo_x * ratio_x + road_x_min`,
`bevy_y = dojo_y * ratio_y`. -/
def dojo_to_bevy_coordinate (ratioX roadXMin ratioY x y : ℚ) : ℚ × ℚ :=
  (x * ratioX + roadXMin, y * ratioY)

lemma two_pow_sixty_four_pos : 0 < (2 : ℕ) ^ 64 := by positivity

/-- The shift in `rand_felt_fixed_point` never wraps: the `u128` product is
below `2^128`, so the outer reduction is the identity. -/
lemma rand_felt_fixed_point_eq (r : ℕ) :
    rand_felt_fixed_point r = r % 2 ^ 128 % 200 * 2 ^ 64 := by
  unfold rand_felt_fixed_point
  have h200 : r % 2 ^ 128 % 200 < 200 := Nat.mod_lt _ (by norm_num)
  have hlt : r % 2 ^ 128 % 200 * 2 ^ 64 < 2 ^ 128 := by
    calc r % 2 ^ 128 % 200 * 2 ^ 64 < 200 * 2 ^ 64 :=
          (Nat.mul_lt_mul_right two_pow_sixty_four_pos).mpr h200
    _ < 2 ^ 128 := by norm_num
  exact Nat.mod_eq_of_lt hlt

/-- Every random fixed-point seed is an exact integer below 200 shifted left
by 64 bits. -/
lemma rand_felt_fixed_point_shape (r : ℕ) :
    ∃ n : ℕ, n < 200 ∧ rand_felt_fixed_point r = n * 2 ^ 64 := by
  refine ⟨r % 2 ^ 128 % 200, Nat.mod_lt _ (by norm_num), ?_⟩
  exact rand_felt_fixed_point_eq r

/-- C10: Every value returned by `rand_felt_fixed_point` equals `n * 2^64`
for some `n < 200`; hence its 64 fractional bits are all zero, decoding it
with the `fixed_to_f32` integer pipeline yields exactly `n` (an integer in
`0..199`), and the value is representable as a field element (below the
STARK prime). -/
theorem rand_felt_fixed_point_is_integral_fixed_point (r : ℕ) :
    ∃ n : ℕ, n < 200 ∧ rand_felt_fixed_point r = n * 2 ^ 64 ∧
      rand_felt_fixed_point r % 2 ^ 64 = 0 ∧
      fixed_to_f32_int (rand_felt_fixed_point r) = n ∧
      rand_felt_fixed_point r < stark_prime := by
  obtain ⟨n, hn, hEq⟩ := rand_felt_fixed_point_shape r
  refine ⟨n, hn, hEq, ?_, ?_, ?_⟩
  · rw [hEq]
    exact Nat.mul_mod_left n (2 ^ 64)
  · rw [hEq]
    unfold fixed_to_f32_int
    exact Nat.mul_div_cancel n two_pow_sixty_four_pos
  · rw [hEq]
    calc n * 2 ^ 64 < 200 * 2 ^ 64 := (Nat.mul_lt_mul_right two_pow_sixty_four_pos).mpr hn
    _ < stark_prime := by norm_num [stark_prime]

/-- C5: The coordinate transform is a pure, deterministic affine map:
its first output is `x * ratio_x + road_x_min`, its second is `y * ratio_y`
with no offset applied to `y` (a zero `y` input maps to a zero `y` output),
differences transform linearly, and the spec's worked example holds:
`(100, 50)` with `ratio_x = 2`, `offset_x = -50`, `ratio_y = 1` maps to
`(150, 50)`. -/
theorem dojo_to_bevy_coordinate_affine (ratioX roadXMin ratioY x y x1 x2 y1 y2 : ℚ) :
    (dojo_to_bevy_coordinate ratioX roadXMin ratioY x y).1 = x * ratioX + roadXMin ∧
    (dojo_to_bevy_coordinate ratioX roadXMin ratioY x y).2 = y * ratioY ∧
    (dojo_to_bevy_coordinate ratioX roadXMin ratioY x 0).2 = 0 ∧
    (dojo_to_bevy_coordinate ratioX roadXMin ratioY x1 y).1 -
      (dojo_to_bevy_coordinate ratioX roadXMin ratioY x2 y).1 = (x1 - x2) * ratioX ∧
    (dojo_to_bevy_coordinate ratioX roadXMin ratioY x y1).2 -
      (dojo_to_bevy_coordinate ratioX roadXMin ratioY x y2).2 = (y1 - y2) * ratioY ∧
    dojo_to_bevy_coordinate 2 (-50) 1 100 50 = (150, 50) := by
  refine ⟨rfl, rfl, ?_, ?_, ?_, ?_⟩
  · simp [dojo_to_bevy_coordinate]
  · simp only [dojo_to_bevy_coordinate]
    ring
  · simp only [dojo_to_bevy_coordinate]
    ring
  · simp only [dojo_to_bevy_coordinate]
    norm_num

/-- Floor bound: the integer the decoder produces never exceeds the exact
fixed-point value. -/
lemma fixed_to_f32_int_le (w : ℕ) :
    ((fixed_to_f32_int w : ℚ)) ≤ (w : ℚ) / 2 ^ 64 := by
  unfold fixed_to_f32_int
  exact_mod_cast Nat.cast_div_le

/-- Floor bound: the exact fixed-point value is below the decoded integer
plus one. -/
lemma fixed_to_f32_int_lt (w : ℕ) :
    (w : ℚ) / 2 ^ 64 < (fixed_to_f32_int w : ℚ) + 1 := by
  unfold fixed_to_f32_int
  rw [div_lt_iff₀ (by positivity)]
  have h : w < w / 2 ^ 64 * 2 ^ 64 + 2 ^ 64 := Nat.lt_div_mul_add two_pow_sixty_four_pos
  have h2 : (w : ℚ) < ((w / 2 ^ 64 : ℕ) : ℚ) * 2 ^ 64 + 2 ^ 64 := by exact_mod_cast h
  linarith

/-- C1 counterexample: for the fixed-point input `2^63` (encoding the value
`1/2`), the decoder's integer pipeline yields `0`, so `fixed_to_f32` returns
exactly `0.0` — not within floating-point rounding error of
`2^63 / 2^64 = 1/2`. -/
theorem fixed_to_f32_half_not_within_rounding :
    fixed_to_f32_int (2 ^ 63) = 0 ∧
      ¬ withinF32Rounding ((fixed_to_f32_int (2 ^ 63) : ℚ)) (((2 ^ 63 : ℕ) : ℚ) / 2 ^ 64) := by
  have h0 : fixed_to_f32_int (2 ^ 63) = 0 := by
    unfold fixed_to_f32_int
    exact Nat.div_eq_of_lt (by norm_num)
  refine ⟨h0, ?_⟩
  unfold withinF32Rounding
  rw [h0]
  have hhalf : (((2 ^ 63 : ℕ) : ℚ)) / 2 ^ 64 = 1 / 2 := by
    push_cast
    norm_num
  rw [hhalf]
  intro h
  have habs : |(((0 : ℕ) : ℚ)) - 1 / 2| = 1 / 2 := by
    rw [show (((0 : ℕ) : ℚ)) - 1 / 2 = -(1 / 2) by push_cast; ring, abs_neg,
      abs_of_nonneg (by norm_num)]
  rw [habs, abs_of_nonneg (by norm_num)] at h
  norm_num at h

/-- C1 amended: `fixed_to_f32` truncates the 64 fractional bits with integer
division before converting to `f32`: for every input `w` the integer it
converts is exactly `⌊w / 2^64⌋`, so its result is within rounding error of
`⌊w / 2^64⌋` rather than of `w / 2^64`.  For inputs `v` whose fractional bits
are all zero (`2^64 ∣ v`) that integer equals `v / 2^64` exactly, hence the
result is within floating-point rounding error of `v / 2^64`; and
`fixed_to_f32 0 = 0.0` since the integer for input `0` is `0`. -/
theorem fixed_to_f32_trunc_decode (v w : ℕ) (h : 2 ^ 64 ∣ v) :
    (((fixed_to_f32_int w : ℚ)) ≤ (w : ℚ) / 2 ^ 64 ∧
      (w : ℚ) / 2 ^ 64 < (fixed_to_f32_int w : ℚ) + 1) ∧
    ((fixed_to_f32_int v : ℚ)) = (v : ℚ) / 2 ^ 64 ∧
    withinF32Rounding ((fixed_to_f32_int v : ℚ)) ((v : ℚ) / 2 ^ 64) ∧
    fixed_to_f32_int 0 = 0 := by
  obtain ⟨k, hk⟩ := h
  have hint : fixed_to_f32_int v = k := by
    unfold fixed_to_f32_int
    rw [hk]
    exact Nat.mul_div_cancel_left k two_pow_sixty_four_pos
  have hexact : ((fixed_to_f32_int v : ℚ)) = (v : ℚ) / 2 ^ 64 := by
    rw [hint, hk]
    push_cast
    field_simp
    ring
  refine ⟨⟨fixed_to_f32_int_le w, fixed_to_f32_int_lt w⟩, hexact, ?_, rfl⟩
  unfold withinF32Rounding
  rw [hexact, sub_self, abs_zero]
  positivity

/-- C1 amended, witnessed at the concrete divisible input `3 * 2^64` (and
`w = 5`): the hypothesis `2^64 ∣ 3 * 2^64` holds and the decoded integer
equals the exact value `3`. -/
theorem fixed_to_f32_trunc_decode_witness :
    2 ^ 64 ∣ 3 * 2 ^ 64 ∧
      ((fixed_to_f32_int (3 * 2 ^ 64) : ℚ)) = ((3 * 2 ^ 64 : ℕ) : ℚ) / 2 ^ 64 ∧
      fixed_to_f32_int (3 * 2 ^ 64) = 3 :=
  ⟨dvd_mul_left (2 ^ 64) 3,
    (fixed_to_f32_trunc_decode (3 * 2 ^ 64) 5 (dvd_mul_left (2 ^ 64) 3)).2.1,
    by norm_num [fixed_to_f32_int]⟩

/-! ## Sync timer and dispatcher (`DojoSyncTime`, `sync_dojo_state`) -/

/-- The four command categories dispatched by `sync_dojo_state`
(src/dojo.rs:312-348): each wraps the sender of one bounded channel. -/
inductive DojoCmd where
  | spawnRacers
  | drive
  | updateVehicle
  | updateEnemies
deriving DecidableEq

/-- The state of a Bevy 0.10 repeating `Timer` (the only mode used here),
durations measured in integer nanoseconds: the accumulated elapsed time, the
`finished` flag and `times_finished_this_tick`.  The fixed period is passed
separately to `tick`. -/
structure BevyTimer where
  elapsed : ℕ
  finished : Bool
  timesFinishedThisTick : ℕ
deriving DecidableEq

/-- `Timer::tick(delta)` for an unpaused repeating timer with period `P`
(bevy_time 0.10): add `delta` to the stopwatch; if the total reaches the
period, set `finished`, record how many whole periods completed this tick
and wrap the elapsed time modulo the period; otherwise clear
`times_finished_this_tick`. -/
def BevyTimer.tick (P d : ℕ) (t : BevyTimer) : BevyTimer :=
  let e := t.elapsed + d
  if P ≤ e then
    { elapsed := e % P, finished := true, timesFinishedThisTick := e / P }
  else
    { elapsed := e, finished := false, timesFinishedThisTick := 0 }

/-- `Timer::just_finished()`: `times_finished_this_tick > 0`. -/
def BevyTimer.justFinished (t : BevyTimer) : Bool :=
  t.timesFinishedThisTick != 0

/-- `Timer::reset()`: zero the stopwatch, clear `finished` and
`times_finished_this_tick`. -/
def BevyTimer.reset (_ : BevyTimer) : BevyTimer :=
  { elapsed := 0, finished := false, timesFinishedThisTick := 0 }

/-- `DojoSyncTime::from_seconds` (src/dojo.rs:98-104): a fresh repeating
timer — nothing elapsed, not finished. -/
def dojo_sync_time_from_seconds : BevyTimer :=
  { elapsed := 0, finished := false, timesFinishedThisTick := 0 }

/-- One run of the `sync_dojo_state` system (src/dojo.rs:106-137) with period
`P`, `carsEmpty` the result of `cars.is_empty()`, `full c` telling whether
category `c`'s channel is at capacity (so its `try_send` fails), and `d` the
frame's `time.delta()`.  Returns the updated timer, the list of commands
whose enqueue was attempted (in program order), and the list of commands
whose failed `try_send` was logged.  When the timer just finished, it is
reset (the frame's delta is discarded) and the dispatch branch runs;
otherwise the timer merely ticks. -/
def sync_dojo_state (P : ℕ) (carsEmpty : Bool) (full : DojoCmd → Bool) (d : ℕ)
    (t : BevyTimer) : BevyTimer × List DojoCmd × List DojoCmd :=
  if t.justFinished then
    let attempts :=
      if carsEmpty then [DojoCmd.spawnRacers]
      else [DojoCmd.updateVehicle, DojoCmd.drive, DojoCmd.updateEnemies]
    (t.reset, attempts, attempts.filter full)
  else
    (t.tick P d, [], [])

/-- C2: On a dispatcher fire (the timer just finished), with no racer entity
exactly one `SpawnRacers` enqueue is attempted and nothing else; with a racer
present exactly one `UpdateVehicle`, one `Drive` and one `UpdateEnemies`
enqueue are attempted and `SpawnRacers` is never attempted.  The attempted
list does not depend on `full` (channel fullness), so each attempt is made
independently of the others' failures. -/
theorem sync_dojo_state_fire_commands (P d : ℕ) (full : DojoCmd → Bool)
    (t : BevyTimer) (h : t.justFinished = true) :
    (sync_dojo_state P true full d t).2.1 = [DojoCmd.spawnRacers] ∧
    (sync_dojo_state P false full d t).2.1 =
      [DojoCmd.updateVehicle, DojoCmd.drive, DojoCmd.updateEnemies] ∧
    DojoCmd.spawnRacers ∉ (sync_dojo_state P false full d t).2.1 ∧
    (sync_dojo_state P false full d t).2.1.count DojoCmd.updateVehicle = 1 ∧
    (sync_dojo_state P false full d t).2.1.count DojoCmd.drive = 1 ∧
    (sync_dojo_state P false full d t).2.1.count DojoCmd.updateEnemies = 1 ∧
    (sync_dojo_state P true full d t).2.1.count DojoCmd.spawnRacers = 1 := by
  simp [sync_dojo_state, h, List.count_cons]

/-- C2, witnessed on a concrete just-finished timer state. -/
theorem sync_dojo_state_fire_commands_witness :
    (sync_dojo_state 5 true (fun _ => false) 0 ⟨0, true, 1⟩).2.1 = [DojoCmd.spawnRacers] ∧
    (sync_dojo_state 5 false (fun _ => false) 0 ⟨0, true, 1⟩).2.1 =
      [DojoCmd.updateVehicle, DojoCmd.drive, DojoCmd.updateEnemies] :=
  ⟨(sync_dojo_state_fire_commands 5 0 (fun _ => false) ⟨0, true, 1⟩ rfl).1,
    (sync_dojo_state_fire_commands 5 0 (fun _ => false) ⟨0, true, 1⟩ rfl).2.1⟩

/-- Running the `sync_dojo_state` system over a list of per-frame deltas from
a given timer state: returns the final timer and the number of dispatcher
fires (runs that entered the `just_finished` branch and attempted enqueues). -/
def run_sync (P : ℕ) (ce : Bool) (full : DojoCmd → Bool) :
    List ℕ → BevyTimer → BevyTimer × ℕ
  | [], t => (t, 0)
  | d :: ds, t =>
    ((run_sync P ce full ds (sync_dojo_state P ce full d t).1).1,
      (if t.justFinished then 1 else 0) +
        (run_sync P ce full ds (sync_dojo_state P ce full d t).1).2)

/-- Splitting a run of the sync system over an appended delta list. -/
lemma run_sync_append (P : ℕ) (ce : Bool) (full : DojoCmd → Bool)
    (as bs : List ℕ) (t : BevyTimer) :
    run_sync P ce full (as ++ bs) t =
      ((run_sync P ce full bs (run_sync P ce full as t).1).1,
        (run_sync P ce full as t).2 +
          (run_sync P ce full bs (run_sync P ce full as t).1).2) := by
  induction as generalizing t with
  | nil => simp [run_sync]
  | cons d ds ih =>
    simp only [List.cons_append, run_sync, List.append_eq]
    rw [ih]
    simp [Nat.add_assoc]

/-- While the total fed time stays below the period, the timer merely
accumulates: no fire, `just_finished` stays false. -/
lemma run_sync_accumulate (P : ℕ) (ce : Bool) (full : DojoCmd → Bool)
    (ds : List ℕ) (e : ℕ) (h : e + ds.sum < P) :
    run_sync P ce full ds ⟨e, false, 0⟩ = (⟨e + ds.sum, false, 0⟩, 0) := by
  induction ds generalizing e with
  | nil => simp [run_sync]
  | cons d ds ih =>
    simp only [List.sum_cons] at h
    have hjf : BevyTimer.justFinished ⟨e, false, 0⟩ = false := rfl
    have hle : ¬ P ≤ e + d := by omega
    have htick : BevyTimer.tick P d ⟨e, false, 0⟩ = ⟨e + d, false, 0⟩ := by
      simp [BevyTimer.tick, hle]
    have ih2 := ih (e + d) (by omega)
    simp only [run_sync, sync_dojo_state, hjf, Bool.false_eq_true, if_false, htick, ih2]
    simp [BevyTimer.mk.injEq]
    omega

/-- From a fresh timer, a zero-sum delta list followed by one more run never
fires (the one extra tick cannot complete a positive period from zero). -/
lemma run_sync_zero_sum_then_tick (P : ℕ) (ce : Bool) (full : DojoCmd → Bool)
    (ds : List ℕ) (x : ℕ) (hds : ds.sum = 0) (hP : 0 < P) :
    (run_sync P ce full (ds ++ [x]) ⟨0, false, 0⟩).2 = 0 := by
  have hacc := run_sync_accumulate P ce full ds 0 (by omega)
  rw [run_sync_append, hacc]
  simp [run_sync, sync_dojo_state, BevyTimer.justFinished, hds]

/-- From a just-finished timer state, a zero-sum delta list followed by one
extra run fires exactly once: the first run fires and resets, and nothing
re-completes afterwards. -/
lemma run_sync_fire_once (P : ℕ) (ce : Bool) (full : DojoCmd → Bool)
    (ds : List ℕ) (x : ℕ) (t : BevyTimer) (hjf : t.justFinished = true)
    (hsum : ds.sum = 0) (hP : 0 < P) :
    (run_sync P ce full (ds ++ [x]) t).2 = 1 := by
  cases ds with
  | nil => simp [run_sync, sync_dojo_state, hjf]
  | cons d ds =>
    simp only [List.sum_cons] at hsum
    have hds : ds.sum = 0 := by omega
    have hrest := run_sync_zero_sum_then_tick P ce full ds x hds hP
    simp only [List.cons_append, run_sync, sync_dojo_state, hjf, if_true, List.append_eq]
    simp [BevyTimer.reset, hrest]

/-- Feeding deltas that bring the accumulated time from `e` exactly to the
period `P`, then one more run, fires the dispatcher exactly once. -/
lemma run_sync_complete (P : ℕ) (ce : Bool) (full : DojoCmd → Bool)
    (ds : List ℕ) (x : ℕ) (e : ℕ) (hP : 0 < P) (he : e < P)
    (hsum : e + ds.sum = P) :
    (run_sync P ce full (ds ++ [x]) ⟨e, false, 0⟩).2 = 1 := by
  induction ds generalizing e with
  | nil =>
    simp only [List.sum_nil] at hsum
    omega
  | cons d ds ih =>
    simp only [List.sum_cons] at hsum
    have hjf : BevyTimer.justFinished ⟨e, false, 0⟩ = false := rfl
    by_cases hle : P ≤ e + d
    · have hed : e + d = P := by omega
      have hds : ds.sum = 0 := by omega
      have htick : BevyTimer.tick P d ⟨e, false, 0⟩ = ⟨0, true, 1⟩ := by
        simp [BevyTimer.tick, hle, hed, Nat.mod_self, Nat.div_self hP]
      have hfire := run_sync_fire_once P ce full ds x ⟨0, true, 1⟩ rfl hds hP
      simp only [List.cons_append, run_sync, sync_dojo_state, hjf,
        Bool.false_eq_true, if_false, htick, List.append_eq]
      simpa using hfire
    · have htick : BevyTimer.tick P d ⟨e, false, 0⟩ = ⟨e + d, false, 0⟩ := by
        simp [BevyTimer.tick, hle]
      have ih2 := ih (e + d) (by omega) (by omega)
      simp only [List.cons_append, run_sync, sync_dojo_state, hjf,
        Bool.false_eq_true, if_false, htick, List.append_eq]
      simpa using ih2

/-- C3 amended: from a fresh timer with period `P > 0`, feeding frame deltas
summing to strictly less than `P` fires the dispatcher zero times; feeding
deltas summing to exactly `P` fires it zero times during those runs, and the
single fire occurs on the next run of the system (whatever that run's delta
`x` is — the firing run discards its own delta), for a total of exactly one
fire. -/
theorem sync_timer_fire_on_next_run (P : ℕ) (ce : Bool) (full : DojoCmd → Bool)
    (ds : List ℕ) (x : ℕ) (hP : 0 < P) :
    (ds.sum = P →
      (run_sync P ce full (ds ++ [x]) dojo_sync_time_from_seconds).2 = 1) ∧
    (ds.sum < P →
      (run_sync P ce full ds dojo_sync_time_from_seconds).2 = 0) := by
  constructor
  · intro hsum
    exact run_sync_complete P ce full ds x 0 hP hP (by omega)
  · intro hsum
    have hacc := run_sync_accumulate P ce full ds 0 (by omega)
    show (run_sync P ce full ds ⟨0, false, 0⟩).2 = 0
    rw [hacc]

/-- C3 counterexample: with period `P = 1`, feeding exactly `P` elapsed time
in one system run (`deltas = [1]`, so the fed total equals the period) fires
the dispatcher zero times, not once — the completing tick only marks the
timer just-finished, and the dispatch happens on the following run. -/
theorem sync_timer_exact_period_zero_fires :
    List.sum [1] = 1 ∧
      (run_sync 1 true (fun _ => false) [1] dojo_sync_time_from_seconds).2 = 0 :=
  ⟨rfl, rfl⟩

/-- C3 amended, witnessed at `P = 2`: deltas `[1, 1]` plus one further run
give exactly one fire, and deltas `[1]` (total below the period) give zero. -/
theorem sync_timer_fire_on_next_run_witness :
    (run_sync 2 true (fun _ => false) ([1, 1] ++ [0]) dojo_sync_time_from_seconds).2 = 1 ∧
      (run_sync 2 true (fun _ => false) [1] dojo_sync_time_from_seconds).2 = 0 :=
  ⟨(sync_timer_fire_on_next_run 2 true (fun _ => false) [1, 1] 0 (by norm_num)).1 rfl,
    (sync_timer_fire_on_next_run 2 true (fun _ => false) [1] 0 (by norm_num)).2 (by norm_num)⟩

/-! ## Bounded command channels (`mpsc::channel`, `try_send`) -/

/-- Channel capacity for `SpawnRacersCommand` (src/dojo.rs:144). -/
def spawn_racers_channel_capacity : ℕ := 8

/-- Channel capacity for `DriveCommand` (src/dojo.rs:190). -/
def drive_channel_capacity : ℕ := 8

/-- Channel capacity for `UpdateVehicleCommand` (src/dojo.rs:222). -/
def update_vehicle_channel_capacity : ℕ := 16

/-- Channel capacity for `UpdateEnemiesCommand` (src/dojo.rs:265). -/
def update_enemies_channel_capacity : ℕ := 16

/-- `Sender::try_send` on a bounded tokio mpsc channel whose receiver is
alive, modeled on the buffered-message count: succeed and buffer the message
when below capacity, otherwise fail immediately with `TrySendError::Full`
(`none`).  It is a total function — the call returns at once, it never
blocks or waits. -/
def channel_try_send (cap len : ℕ) : Option ℕ :=
  if len < cap then some (len + 1) else none

/-- `n` consecutive `try_send` calls into a channel of capacity `cap` with
the worker never draining it: returns the final buffered count and the
number of dropped (failed) sends. -/
def send_burst (cap : ℕ) : ℕ → ℕ × ℕ
  | 0 => (0, 0)
  | n + 1 =>
    match channel_try_send cap (send_burst cap n).1 with
    | some l => (l, (send_burst cap n).2)
    | none => ((send_burst cap n).1, (send_burst cap n).2 + 1)

/-- Up to capacity, every send is buffered and nothing is dropped. -/
lemma send_burst_fill (cap n : ℕ) (h : n ≤ cap) : send_burst cap n = (n, 0) := by
  induction n with
  | zero => rfl
  | succ m ih =>
    have hm := ih (by omega)
    simp [send_burst, hm, channel_try_send, Nat.lt_of_succ_le h]

/-- C4: The four command channels are bounded with capacity 8 for
`SpawnRacers` and `Drive` and 16 for `UpdateVehicle` and `UpdateEnemies`;
every enqueue is a non-blocking `try_send` that always returns immediately
(either buffering the message or failing); and sending `capacity + 1`
commands into a channel of any capacity without draining yields exactly one
dropped send, with the first `capacity` sends buffered. -/
theorem channel_bounds_and_burst (cap len : ℕ) :
    spawn_racers_channel_capacity = 8 ∧
    drive_channel_capacity = 8 ∧
    update_vehicle_channel_capacity = 16 ∧
    update_enemies_channel_capacity = 16 ∧
    send_burst cap (cap + 1) = (cap, 1) ∧
    (channel_try_send cap len = some (len + 1) ∨ channel_try_send cap len = none) := by
  refine ⟨rfl, rfl, rfl, rfl, ?_, ?_⟩
  · have hfill := send_burst_fill cap cap (le_refl cap)
    simp [send_burst, hfill, channel_try_send]
  · unfold channel_try_send
    by_cases h : len < cap <;> simp [h]

/-! ## Worker tasks (`spawn_racers_thread`, `drive_thread`,
`update_vehicle_thread`, `update_enemies_thread`) -/

/-- Events sent through the main-thread bridge to downstream consumers
(`SpawnCar`, `SpawnEnemies` in src/enemy.rs:38, `UpdateCar`, `UpdateEnemy`
in src/enemy.rs:86-89).  Record payloads are lists of raw field-element
values. -/
inductive BridgeEvent where
  | spawnCar
  | spawnEnemies
  | updateCar (vehicle : List ℕ)
  | updateEnemy (position : List ℕ) (enemyId : ℕ)
deriving DecidableEq

/-- One iteration of the `spawn_racers_thread` receive loop
(src/dojo.rs:151-186) on receipt of a `SpawnRacers` command, with `modelId`
the felt of the configured `MODEL_NAME`, `r` the thread-rng sample feeding
`rand_felt_fixed_point`, and `execOk` whether the `spawn_racer` system call
succeeded.  Returns the ordered argument list passed to
`spawn_racer_system.execute`, the main-thread callbacks run (each callback
is the list of events it emits, in emission order), and the number of
error-log lines. -/
def spawn_racers_iteration (modelId r : ℕ) (execOk : Bool) :
    List ℕ × List (List BridgeEvent) × ℕ :=
  ([modelId, rand_felt_fixed_point r, 0, 0, 0],
    if execOk then [[BridgeEvent.spawnEnemies, BridgeEvent.spawnCar]] else [],
    if execOk then 0 else 1)

/-- C6: Each `SpawnRacers` command invokes the spawn-racer ledger action with
exactly five arguments in order — the configured model identifier, a
randomized fixed-point seed (an exact integer below 200 shifted by 64 bits),
and three zero field elements — and the two events "enemies should spawn"
and "car should spawn" are emitted inside one single main-thread callback
exactly when the call succeeds (nothing is emitted on failure). -/
theorem spawn_racers_protocol (modelId r : ℕ) (execOk : Bool) :
    (spawn_racers_iteration modelId r execOk).1.length = 5 ∧
    (spawn_racers_iteration modelId r execOk).1 =
      [modelId, rand_felt_fixed_point r, 0, 0, 0] ∧
    (∃ n : ℕ, n < 200 ∧
      (spawn_racers_iteration modelId r execOk).1[1]? = some (n * 2 ^ 64)) ∧
    ((spawn_racers_iteration modelId r execOk).2.1 =
        [[BridgeEvent.spawnEnemies, BridgeEvent.spawnCar]] ↔ execOk = true) ∧
    (execOk = false → (spawn_racers_iteration modelId r execOk).2.1 = []) := by
  refine ⟨rfl, rfl, ?_, ?_, ?_⟩
  · obtain ⟨n, hn, hEq⟩ := rand_felt_fixed_point_shape r
    exact ⟨n, hn, by simp [spawn_racers_iteration, hEq]⟩
  · cases execOk <;> simp [spawn_racers_iteration]
  · intro h
    simp [spawn_racers_iteration, h]

/-- C6, witnessed at a concrete model id, rng sample and both call
outcomes. -/
theorem spawn_racers_protocol_witness :
    (spawn_racers_iteration 7 1 true).1.length = 5 ∧
      (spawn_racers_iteration 7 1 true).2.1 =
        [[BridgeEvent.spawnEnemies, BridgeEvent.spawnCar]] ∧
      (spawn_racers_iteration 7 1 false).2.1 = [] :=
  ⟨(spawn_racers_protocol 7 1 true).1,
    ((spawn_racers_protocol 7 1 true).2.2.2.1).mpr rfl,
    (spawn_racers_protocol 7 1 false).2.2.2.2 rfl⟩

/-- One iteration of the `drive_thread` receive loop (src/dojo.rs:202-213):
`modelId` is the result of `get_model_id` (src/dojo.rs:368-379, `none` when
no racer entity exists), `execOk` whether the `drive` system call succeeded.
Returns the argument lists of the ledger calls made and the number of
error-log lines.  With no model id the command is skipped entirely: no call,
no log. -/
def drive_iteration (modelId : Option ℕ) (execOk : Bool) : List (List ℕ) × ℕ :=
  match modelId with
  | some m => ([[m]], if execOk then 0 else 1)
  | none => ([], 0)

/-- The `drive_thread` receive loop over a list of received commands (each
with its fresh `get_model_id` result and call outcome): every command is
processed in turn. -/
def drive_loop (inputs : List (Option ℕ × Bool)) : List (List (List ℕ) × ℕ) :=
  inputs.map fun p => drive_iteration p.1 p.2

/-- One iteration of the `update_vehicle_thread` receive loop
(src/dojo.rs:233-256): with a model id the `Vehicle` component is queried at
entity key zero and key tuple `[model_id]`; on success one `UpdateCar` event
is emitted in a main-thread callback, on failure one error is logged.
Returns (queries made, callbacks run, error-log lines). -/
def update_vehicle_iteration (modelId : Option ℕ) (queryRes : Option (List ℕ)) :
    List (ℕ × List ℕ) × List (List BridgeEvent) × ℕ :=
  match modelId with
  | some m =>
    match queryRes with
    | some vehicle => ([(0, [m])], [[BridgeEvent.updateCar vehicle]], 0)
    | none => ([(0, [m])], [], 1)
  | none => ([], [], 0)

/-- One iteration of the `update_enemies_thread` receive loop
(src/dojo.rs:276-308): with a model id, one `Position` query per enemy index
`i` in `0..nb` (`nb` the configured `DOJO_ENEMIES_NB`), each at entity key
zero with key tuple `[model_id, i]`; `results i` is the outcome of query
`i`.  Each success emits one `UpdateEnemy` event (raw position record plus
enemy index) in its own main-thread callback; each failure logs one error
and the iteration continues.  Returns (queries, emitted events as
(position, enemy index) pairs in emission order, error-log lines). -/
def update_enemies_iteration (nb : ℕ) (modelId : Option ℕ)
    (results : ℕ → Option (List ℕ)) :
    List (ℕ × List ℕ) × List (List ℕ × ℕ) × ℕ :=
  match modelId with
  | some m =>
    ((List.range nb).map fun i => (0, [m, i]),
      (List.range nb).filterMap fun i => (results i).map fun pos => (pos, i),
      (List.range nb).countP fun i => (results i).isNone)
  | none => ([], [], 0)

/-- C7: When `get_model_id` resolves to nothing (no racer entity), each of
the `Drive`, `UpdateVehicle` and `UpdateEnemies` workers performs no ledger
call, emits no event and logs nothing for that command, and the receive loop
simply moves on to the next command — the missing model id is never treated
as an error. -/
theorem missing_model_id_is_silent_skip (execOk : Bool) (queryRes : Option (List ℕ))
    (nb : ℕ) (results : ℕ → Option (List ℕ)) (rest : List (Option ℕ × Bool)) :
    drive_iteration none execOk = ([], 0) ∧
    update_vehicle_iteration none queryRes = ([], [], 0) ∧
    update_enemies_iteration nb none results = ([], [], 0) ∧
    drive_loop ((none, execOk) :: rest) = ([], 0) :: drive_loop rest := by
  refine ⟨rfl, rfl, rfl, rfl⟩

/-- Events produced for enemy indices at or beyond `nb` do not exist: every
emitted pair carries an index drawn from `0..nb`. -/
lemma update_enemies_count_out_of_range (nb i : ℕ)
    (results : ℕ → Option (List ℕ)) (h : nb ≤ i) :
    ((List.range nb).filterMap fun j => (results j).map fun pos => (pos, j)).countP
      (fun e => e.2 == i) = 0 := by
  induction nb with
  | zero => rfl
  | succ m ih =>
    rw [List.range_succ, List.filterMap_append, List.countP_append,
      ih (by omega)]
    cases hm : results m <;>
      simp [List.filterMap, hm, Nat.ne_of_lt (Nat.lt_of_lt_of_le (Nat.lt_succ_self m) h)]

/-- For an in-range enemy index, the number of emitted events with that index
is one when its query succeeded and zero when it failed. -/
lemma update_enemies_count_in_range (nb i : ℕ)
    (results : ℕ → Option (List ℕ)) (h : i < nb) :
    ((List.range nb).filterMap fun j => (results j).map fun pos => (pos, j)).countP
      (fun e => e.2 == i) = if (results i).isSome then 1 else 0 := by
  induction nb with
  | zero => omega
  | succ m ih =>
    rw [List.range_succ, List.filterMap_append, List.countP_append]
    by_cases him : i < m
    · rw [ih him]
      cases hm : results m <;> simp [List.filterMap, hm, Nat.ne_of_gt him]
    · have him : i = m := by omega
      subst him
      rw [update_enemies_count_out_of_range i i results (le_refl i)]
      cases hi : results i <;> simp [List.filterMap, hi]

/-- C8: On an `UpdateEnemies` command with a resolved model id, the worker
issues one `Position` query per enemy index, for indices `0` through
`nb - 1` in order, each keyed by the zero entity reference plus
`(model id, enemy index)`; for each index whose query succeeds it emits
exactly one enemy-position-updated event carrying that raw position record
and that index, a failed index emits nothing — and the iteration still
covers all `nb` indices regardless of failures. -/
theorem update_enemies_protocol (nb m i : ℕ) (results : ℕ → Option (List ℕ))
    (pos : List ℕ) (hi : i < nb) :
    (update_enemies_iteration nb (some m) results).1.length = nb ∧
    (update_enemies_iteration nb (some m) results).1[i]? = some (0, [m, i]) ∧
    (results i = some pos →
      ((pos, i) ∈ (update_enemies_iteration nb (some m) results).2.1 ∧
        (update_enemies_iteration nb (some m) results).2.1.countP
          (fun e => e.2 == i) = 1)) ∧
    (results i = none →
      (update_enemies_iteration nb (some m) results).2.1.countP
        (fun e => e.2 == i) = 0) := by
  refine ⟨?_, ?_, ?_, ?_⟩
  · simp [update_enemies_iteration]
  · simp [update_enemies_iteration, List.getElem?_map, List.getElem?_range hi]
  · intro hres
    constructor
    · simp only [update_enemies_iteration]
      exact List.mem_filterMap.mpr ⟨i, List.mem_range.mpr hi, by simp [hres]⟩
    · simp only [update_enemies_iteration]
      rw [update_enemies_count_in_range nb i results hi]
      simp [hres]
  · intro hres
    simp only [update_enemies_iteration]
    rw [update_enemies_count_in_range nb i results hi]
    simp [hres]

/-- C8, witnessed with two enemies where the query for index 0 fails and the
query for index 1 succeeds: both queries are issued and the surviving index
still gets its event. -/
theorem update_enemies_protocol_witness :
    (1 : ℕ) < 2 ∧
      (update_enemies_iteration 2 (some 5)
        (fun j => if j = 0 then none else some [7, 9])).1.length = 2 ∧
      (update_enemies_iteration 2 (some 5)
        (fun j => if j = 0 then none else some [7, 9])).1[1]? = some (0, [5, 1]) ∧
      ([7, 9], 1) ∈ (update_enemies_iteration 2 (some 5)
        (fun j => if j = 0 then none else some [7, 9])).2.1 := by
  have T := update_enemies_protocol 2 5 1
    (fun j => if j = 0 then none else some [7, 9]) [7, 9] (by norm_num)
  exact ⟨by norm_num, T.1, T.2.1, (T.2.2.1 rfl).1⟩

/-- Observable per-iteration events of one worker task's receive loop,
labelled by submission index: command received, ledger call started, ledger
call completed, main-thread bridge callback completed. -/
inductive WorkerEv where
  | recv (k : ℕ)
  | callStart (k : ℕ)
  | callEnd (k : ℕ)
  | bridgeRun (k : ℕ)
deriving DecidableEq

/-- The event trace of one worker task processing its received commands in
order (`while let Some(_) = rx.recv().await` in src/dojo.rs:202-213 and
233-256): each loop iteration awaits the ledger call to completion and then
awaits the bridge callback before the next receive, so the iterations'
events appear back to back.  (The `drive` worker has no bridge callback; for
it the `bridgeRun` event marks the end of the iteration.) -/
def worker_trace : List ℕ → List WorkerEv
  | [] => []
  | k :: ks => WorkerEv.recv k :: WorkerEv.callStart k :: WorkerEv.callEnd k ::
      WorkerEv.bridgeRun k :: worker_trace ks

/-- The submission indices of the started ledger calls, in trace order. -/
def call_starts (tr : List WorkerEv) : List ℕ :=
  tr.filterMap fun e => match e with | WorkerEv.callStart k => some k | _ => none

/-- The submission indices of the completed ledger calls, in trace order. -/
def call_ends (tr : List WorkerEv) : List ℕ :=
  tr.filterMap fun e => match e with | WorkerEv.callEnd k => some k | _ => none

/-- The submission indices of the completed bridge callbacks, in trace
order. -/
def bridge_runs (tr : List WorkerEv) : List ℕ :=
  tr.filterMap fun e => match e with | WorkerEv.bridgeRun k => some k | _ => none

/-- Scans a trace tracking whether a ledger call is in flight: `true` only
if no call starts while another is in flight and no call ends without one in
flight. -/
def overlap_free : List WorkerEv → Bool → Bool
  | [], _ => true
  | WorkerEv.callStart _ :: es, busy => !busy && overlap_free es true
  | WorkerEv.callEnd _ :: es, busy => busy && overlap_free es false
  | _ :: es, busy => overlap_free es busy

/-- The per-iteration projections of a worker trace recover the
submission order. -/
lemma call_starts_worker_trace (ks : List ℕ) : call_starts (worker_trace ks) = ks := by
  induction ks with
  | nil => rfl
  | cons k ks ih =>
    unfold call_starts at ih
    simp [worker_trace, call_starts, List.filterMap_cons, ih]

lemma call_ends_worker_trace (ks : List ℕ) : call_ends (worker_trace ks) = ks := by
  induction ks with
  | nil => rfl
  | cons k ks ih =>
    unfold call_ends at ih
    simp [worker_trace, call_ends, List.filterMap_cons, ih]

lemma bridge_runs_worker_trace (ks : List ℕ) : bridge_runs (worker_trace ks) = ks := by
  induction ks with
  | nil => rfl
  | cons k ks ih =>
    unfold bridge_runs at ih
    simp [worker_trace, bridge_runs, List.filterMap_cons, ih]

lemma overlap_free_worker_trace (ks : List ℕ) :
    overlap_free (worker_trace ks) false = true := by
  induction ks with
  | nil => rfl
  | cons k ks ih => simp [worker_trace, overlap_free, ih]

/-- C9: A worker task processes its category's commands strictly one at a
time: in the trace of any submission sequence the ledger calls start,
complete, and have their bridge callbacks run exactly in submission order,
and at no point are two ledger calls of the same category in flight at
once. -/
theorem worker_commands_sequential (ks : List ℕ) :
    call_starts (worker_trace ks) = ks ∧
    call_ends (worker_trace ks) = ks ∧
    bridge_runs (worker_trace ks) = ks ∧
    overlap_free (worker_trace ks) false = true :=
  ⟨call_starts_worker_trace ks, call_ends_worker_trace ks,
    bridge_runs_worker_trace ks, overlap_free_worker_trace ks⟩
